import Mathlib

/-!
Shallow embedding of `src/git_repo_manager.py` (class `GitRepoManager`).

External processes are modelled by `ProcResult`: the outcome that
`subprocess.run` would produce for one invocation.  A completed process
carries its exit code and captured stdout/stderr (`capture_output=True,
text=True`); a process that could not be launched at all (git binary
missing, permission denied) is a `launchError`, which `subprocess.run`
surfaces as an `OSError`-family exception, not as a `CalledProcessError`.
Python exceptions escaping a function are modelled by `Except PyExc`.
-/

/-- Whitespace as Python `str.strip` removes it (ASCII part). -/
def isPyWhitespace (c : Char) : Bool :=
  c = ' ' || c = '\t' || c = '\n' || c = '\r' || c = '\x0b' || c = '\x0c'

/-- Python `str.strip()`: remove leading and trailing whitespace.  (Defined
over the character list so that it computes inside the kernel.) -/
def strTrim (s : String) : String :=
  String.mk
    (((s.toList.dropWhile isPyWhitespace).reverse.dropWhile
      isPyWhitespace).reverse)

/-- Split a character list on every occurrence of `sep` (Python
`str.split(sep)` with a one-character separator). -/
def splitOnChar (sep : Char) : List Char → List (List Char)
  | [] => [[]]
  | c :: cs =>
    if c = sep then [] :: splitOnChar sep cs
    else
      match splitOnChar sep cs with
      | r :: rs => (c :: r) :: rs
      | [] => [[c]]

/-- Python `str.split(sep)` for a one-character separator. -/
def strSplitOnChar (sep : Char) (s : String) : List String :=
  (splitOnChar sep s.toList).map String.mk

/-- Python exceptions that the embedded fragments can raise. -/
inductive PyExc where
  /-- A `FileNotFoundError` / `PermissionError` raised while launching the
  external process; not a `subprocess.CalledProcessError`. -/
  | osError (msg : String)
  /-- An `IndexError` from indexing past the end of a list. -/
  | indexError
  deriving DecidableEq, Repr

/-- Result of one `subprocess.run` invocation of the external git binary. -/
inductive ProcResult where
  /-- The process launched and terminated with `exitCode`, producing the
  captured `stdout` and `stderr` texts. -/
  | completed (exitCode : Nat) (stdout : String) (stderr : String)
  /-- The process could not be launched (binary missing, permission denied). -/
  | launchError (msg : String)
  deriving DecidableEq, Repr

deriving instance DecidableEq for Except

/-- A `CommandOutcome`: the tuple `(repo_path, output, success)` returned by
`_execute_git_command` and consumed by `_print_results`. -/
abbrev Outcome := String × String × Bool

/-- Model of `_get_current_branch(repo_path)` (lines 40-52): runs
`git rev-parse --abbrev-ref HEAD` with `check=True`.  `env repoPath` is the
process result of that query in `repoPath`.  Only
`subprocess.CalledProcessError` (non-zero exit) is caught and mapped to
`"unknown"`; a launch failure propagates as an exception. -/
def get_current_branch (env : String → ProcResult) (repoPath : String) :
    Except PyExc String :=
  match env repoPath with
  | .launchError m => .error (.osError m)
  | .completed ec out _ =>
    if ec = 0 then .ok (strTrim out) else .ok "unknown"

/-- Model of `_execute_git_command(repo_path, command)` (lines 54-68): runs
`["git"] + shlex.split(command)` in `repoPath` with `check=True`.
`env repoPath command` is the process result of that invocation.  Exit 0
yields `(repo_path, stdout.strip(), True)`; a non-zero exit is caught as
`CalledProcessError` and yields the failure tuple; a launch failure
propagates as an exception. -/
def execute_git_command (env : String → String → ProcResult)
    (repoPath command : String) : Except PyExc Outcome :=
  match env repoPath command with
  | .launchError m => .error (.osError m)
  | .completed ec out err =>
    if ec = 0 then .ok (repoPath, strTrim out, true)
    else
      .ok (repoPath, "Error in " ++ repoPath ++ ":\n" ++ strTrim err, false)

/-- Model of `os.path.basename` for POSIX-style paths: the part after the
last `/`. -/
def basename (p : String) : String :=
  (strSplitOnChar '/' p).getLastD ""

/-- The two lines printed for one outcome inside `_print_results`:
the `=== name ===` header and the output text. -/
def outcome_block (r : Outcome) : List String :=
  ["\n=== " ++ basename r.1 ++ " ===", r.2.1]

/-- Model of `_print_results(results)` (lines 70-75): for each result tuple, in the
order given, prints the header and output when `not success or self.verbose`.
The returned list is the sequence of `poutput` calls. -/
def print_results (verbose : Bool) (results : List Outcome) : List String :=
  results.flatMap fun r =>
    if !r.2.2 || verbose then outcome_block r else []

/-- Predicate `listStartsWith l p`: `p` is a prefix of `l`. -/
def listStartsWith [BEq α] : List α → List α → Bool
  | _, [] => true
  | [], _ :: _ => false
  | a :: as, b :: bs => (a == b) && listStartsWith as bs

/-- Predicate `listHasInfix l sub`: `sub` occurs contiguously inside `l`. -/
def listHasInfix [BEq α] : List α → List α → Bool
  | [], sub => listStartsWith [] sub
  | a :: rest, sub => listStartsWith (a :: rest) sub || listHasInfix rest sub

/-- Python substring membership `sub in s` on strings. -/
def strContains (s sub : String) : Bool :=
  listHasInfix s.toList sub.toList

/-- Python `str.splitlines` restricted to `\n` separators (the outputs the
tool inspects are produced with `\n`).  A trailing newline yields a final
empty line that contains no searched-for substring, so the first-match scans
below are unaffected by the difference from CPython. -/
def splitLines (s : String) : List String :=
  strSplitOnChar '\n' s

/-- Model of `line.split(":")[-1].strip()` from `_get_default_branch`. -/
def headBranchOf (line : String) : String :=
  strTrim ((strSplitOnChar ':' line).getLastD "")

/-- The `for line in result.stdout.splitlines()` loop of
`_get_default_branch`: return the parsed branch of the first line containing
`"HEAD branch"`, if any. -/
def findHeadBranch (lines : List String) : Option String :=
  lines.findSome? fun line =>
    if strContains line "HEAD branch" then some (headBranchOf line) else none

/-- The per-repository behaviour of the external git binary for the two
queries that `_get_default_branch` issues. -/
structure RepoGitEnv where
  /-- Result of `git remote show origin` in the repository. -/
  remoteShowOrigin : ProcResult
  /-- Result of `git branch -a` in the repository. -/
  branchListAll : ProcResult

/-- Model of `_get_default_branch(repo_path)` (lines 203-235).  The whole body sits in
one `try` whose `except subprocess.CalledProcessError` returns `"unknown"`,
so a non-zero exit from either query yields `"unknown"` — in particular the
branch-listing fallback runs only when `git remote show origin` succeeded
with no `HEAD branch` line.  Launch failures propagate. -/
def get_default_branch (env : RepoGitEnv) : Except PyExc String :=
  match env.remoteShowOrigin with
  | .launchError m => .error (.osError m)
  | .completed ec out _ =>
    if ec = 0 then
      match findHeadBranch (splitLines out) with
      | some b => .ok b
      | none =>
        match env.branchListAll with
        | .launchError m => .error (.osError m)
        | .completed ec2 branches _ =>
          if ec2 = 0 then
            if strContains branches "main" then .ok "main"
            else if strContains branches "master" then .ok "master"
            else .ok "unknown"
          else .ok "unknown"
    else .ok "unknown"

/-- Phase 1 of `do_branch_switch_default` (lines 249-257): map
`lambda repo: (repo, self._get_default_branch(repo))` over the registry keys.
`executor.map` returns results in input order and re-raises a worker's
exception when its slot is read, which is the `mapM` semantics over
`Except`. -/
def do_branch_switch_defaults (env : String → RepoGitEnv) :
    List String → Except PyExc (List (String × String))
  | [] => .ok []
  | r :: rest =>
    match get_default_branch (env r) with
    | .error e => .error e
    | .ok b =>
      match do_branch_switch_defaults env rest with
      | .error e => .error e
      | .ok tail => .ok ((r, b) :: tail)

/-- The checkout command built for each resolved pair in phase 2 of
`do_branch_switch_default` (lines 259-266):
`self._execute_git_command(repo_branch[0], f"checkout {repo_branch[1]}")`. -/
def checkout_commands (defaults : List (String × String)) :
    List (String × String) :=
  defaults.map fun rb => (rb.1, "checkout " ++ rb.2)

/-- Phase 2 of `do_branch_switch_default`: run the checkout in each
repository. -/
def do_branch_switch_checkouts (env : String → String → ProcResult) :
    List (String × String) → Except PyExc (List Outcome)
  | [] => .ok []
  | rb :: rest =>
    match execute_git_command env rb.1 ("checkout " ++ rb.2) with
    | .error e => .error e
    | .ok o =>
      match do_branch_switch_checkouts env rest with
      | .error e => .error e
      | .ok tail => .ok (o :: tail)

/-!
The fan-out engine.  `ThreadPoolExecutor(max_workers=K).map(work, targets)`
submits one task per target and keeps at most `K` of them in flight: a new
task starts as soon as a worker is free, and the pool blocks until every
task has completed.  Which in-flight task finishes first is up to the OS
scheduler; we expose that nondeterminism as an oracle `sched : Nat → Nat`
choosing, at each step, which in-flight task completes next.  `schedRun`
accumulates outcomes in completion order, so the theorems below hold for
every interleaving; the real `executor.map` additionally re-orders results
back into submission order, which only strengthens the accounting
properties proved here (they are stated up to permutation).
-/

/-- Remove and return the element at position `i` (used to model an
arbitrary in-flight task completing). -/
def extractIdx {α : Type} : Nat → List α → Option (α × List α)
  | _, [] => none
  | 0, x :: xs => some (x, xs)
  | n + 1, x :: xs =>
    match extractIdx n xs with
    | some (y, ys) => some (y, x :: ys)
    | none => none

/-- One fan-out call in flight: `pending` is the backlog of not-yet-started
targets, `inflight` the at-most-`K` running ones, `done` the outcomes
collected so far.  Each step either starts the next backlog target (when a
worker is free) or lets the schedule pick an in-flight target to finish.
`fuel` bounds the number of steps; `2 * pending.length + inflight.length`
steps always suffice. -/
def schedRun {α : Type} (K : Nat) (work : String → α) (sched : Nat → Nat) :
    Nat → List String → List String → List α → List α
  | 0, _, _, done => done
  | fuel + 1, [], inflight, done =>
    match extractIdx (sched fuel % inflight.length) inflight with
    | some (t, rem) => schedRun K work sched fuel [] rem (done ++ [work t])
    | none => done
  | fuel + 1, p :: rest, inflight, done =>
    if inflight.length < K then
      schedRun K work sched fuel rest (inflight ++ [p]) done
    else
      match extractIdx (sched fuel % inflight.length) inflight with
      | some (t, rem) =>
        schedRun K work sched fuel (p :: rest) rem (done ++ [work t])
      | none => done

/-- One complete fan-out call over `targets` with concurrency `K` under
completion schedule `sched`: all targets start in the backlog, and the call
returns only when the backlog and the pool are empty. -/
def fanOut {α : Type} (K : Nat) (sched : Nat → Nat) (targets : List String)
    (work : String → α) : List α :=
  schedRun K work sched (2 * targets.length) targets [] []

/-- Model of `_execute_git_command` restricted to invocations whose process launch
completes (the git binary is present); `env2 repoPath command` is the
`(exit code, stdout, stderr)` triple of the run.  This is the executor as a
total work function, as the fan-out of `do_git` uses it. -/
def execute_git_completed (env2 : String → String → Nat × String × String)
    (repoPath command : String) : Outcome :=
  match env2 repoPath command with
  | (0, out, _) => (repoPath, strTrim out, true)
  | (_ + 1, _, err) =>
    (repoPath, "Error in " ++ repoPath ++ ":\n" ++ strTrim err, false)

/-- The fan-out of `do_git` (lines 145-153):
`executor.map(lambda repo: self._execute_git_command(repo, command),
self.repos.keys())` with `max_workers = self.threads = K`. -/
def do_git_outcomes (K : Nat) (sched : Nat → Nat)
    (env2 : String → String → Nat × String × String)
    (repos : List String) (command : String) : List Outcome :=
  fanOut K sched repos fun repo => execute_git_completed env2 repo command

/-- Find the first space of a Python string, returning the parts before and
after it (`None` when there is no space). -/
def splitFirstSpace : List Char → Option (List Char × List Char)
  | [] => none
  | c :: cs =>
    if c = ' ' then some ([], cs)
    else
      match splitFirstSpace cs with
      | some (l, r) => some (c :: l, r)
      | none => none

/-- Python `s.split(" ", 1)`: split on the first space only; a string
without a space yields the one-element list `[s]`. -/
def pySplitOnce (s : String) : List String :=
  match splitFirstSpace s.toList with
  | none => [s]
  | some (l, r) => [String.mk l, String.mk r]

/-- Model of `do_git(statement)` (lines 132-153).  An empty registry is reported
with `perror` and yields no outcomes (`ok none`); otherwise the command is
extracted with `statement.split(" ", 1)[1]`, which raises `IndexError` when
the statement has no space, and the fan-out runs the executor over all
registry keys. -/
def do_git (K : Nat) (sched : Nat → Nat)
    (env2 : String → String → Nat × String × String)
    (repos : List String) (statement : String) :
    Except PyExc (Option (List Outcome)) :=
  if repos.isEmpty then .ok none
  else
    match (pySplitOnce statement).get? 1 with
    | none => .error .indexError
    | some command => .ok (some (do_git_outcomes K sched env2 repos command))

/-!
Discovery.  `do_scan` walks the directory tree with `os.walk`; only the
subdirectory lists matter to the code (`".git" in dirs`), so the tree is
modelled as a rose tree of directories, as a pair of mutual inductives to
keep recursion structural.
-/

mutual
/-- A directory: its name and its subdirectories. -/
inductive FSTree where
  | node : String → FSForest → FSTree
/-- A list of sibling directories. -/
inductive FSForest where
  | nil : FSForest
  | cons : FSTree → FSForest → FSForest
end

/-- The directory's own name. -/
def FSTree.name : FSTree → String
  | .node n _ => n

/-- Names of the directories of a forest (the `dirs` list of `os.walk`). -/
def childNames : FSForest → List String
  | .nil => []
  | .cons t ts => t.name :: childNames ts

/-- Check `".git" in dirs`: does some subdirectory have the marker name. -/
def hasGitChild : FSForest → Bool
  | .nil => false
  | .cons t ts => (t.name == ".git") || hasGitChild ts

mutual
/-- The scan loop of `do_scan` (lines 100-107) on one directory: if `.git`
is among its subdirectories, register the directory and clear `dirs`
(`dirs[:] = []`), so the walk descends into none of its subdirectories;
otherwise walk all subdirectories.  Paths are segment lists rooted at the
scanned directory. -/
def walkRepos (pre : List String) : FSTree → List (List String)
  | .node name children =>
    if hasGitChild children then [pre ++ [name]]
    else walkForest (pre ++ [name]) children
/-- The scan loop over a list of sibling directories, in walk order. -/
def walkForest (pre : List String) : FSForest → List (List String)
  | .nil => []
  | .cons t ts => walkRepos pre t ++ walkForest pre ts
end

/-- Membership test among sibling names. -/
def nameMem (n : String) : List String → Bool
  | [] => false
  | m :: rest => (n == m) || nameMem n rest

/-- No two names alike (true of the subdirectories of one real directory). -/
def namesNodup : List String → Bool
  | [] => true
  | n :: rest => (!nameMem n rest) && namesNodup rest

mutual
/-- Well-formedness of a modelled directory: at every level, sibling
directory names are distinct, as on a real filesystem. -/
def FSTree.wfb : FSTree → Bool
  | .node _ children => namesNodup (childNames children) && FSForest.wfb children
/-- Well-formedness of every directory of a forest. -/
def FSForest.wfb : FSForest → Bool
  | .nil => true
  | .cons t ts => t.wfb && FSForest.wfb ts
end

/-- Model of `os.path.abspath(root)` for a walked segment list: the
segments joined with `/`. -/
def pathString : List String → String
  | [] => ""
  | [x] => x
  | x :: y :: rest => x ++ "/" ++ pathString (y :: rest)

/-- Model of `do_scan(args)` (lines 85-111).  `scanDirIsDir` is `os.path.isdir` on
the requested directory (false both when it does not exist and when it is
not a directory); when false, the error is reported with `perror` and the
method returns before touching `self.repos`.  Otherwise the registry is
rebuilt from the walk, resolving each repository's branch with
`_get_current_branch`.  Returns the new registry and the reported errors. -/
def do_scan (repos : List (String × String)) (scanDir : String)
    (scanDirIsDir : Bool) (tree : FSTree) (env : String → ProcResult) :
    Except PyExc (List (String × String) × List String) :=
  if !scanDirIsDir then .ok (repos, ["Directory not found: " ++ scanDir])
  else
    ((walkRepos [] tree).mapM fun p =>
      (get_current_branch env (pathString p)).map fun b =>
        (pathString p, b)).map fun entries => (entries, [])

/-!
Theorems.  First the accounting facts about the fan-out engine, shared by
several claims below.
-/

theorem extractIdx_some_perm {α : Type} :
    ∀ (l : List α) (i : Nat) (x : α) (rest : List α),
      extractIdx i l = some (x, rest) → l.Perm (x :: rest) := by
  intro l
  induction l with
  | nil => intro i x rest h; simp [extractIdx] at h
  | cons a as ih =>
    intro i x rest h
    cases i with
    | zero =>
      simp [extractIdx] at h
      rcases h with ⟨rfl, rfl⟩
      exact List.Perm.refl _
    | succ n =>
      simp only [extractIdx] at h
      cases h2 : extractIdx n as with
      | none => rw [h2] at h; simp at h
      | some pr =>
        rcases pr with ⟨y, ys⟩
        rw [h2] at h
        simp at h
        rcases h with ⟨rfl, rfl⟩
        exact ((ih n y ys h2).cons a).trans (List.Perm.swap y a ys)

theorem extractIdx_isSome {α : Type} :
    ∀ (l : List α) (i : Nat), i < l.length →
      ∃ x rest, extractIdx i l = some (x, rest) := by
  intro l
  induction l with
  | nil => intro i h; simp at h
  | cons a as ih =>
    intro i h
    cases i with
    | zero => exact ⟨a, as, rfl⟩
    | succ n =>
      have hn : n < as.length := by simpa using h
      obtain ⟨y, ys, hy⟩ := ih n hn
      exact ⟨y, a :: ys, by simp [extractIdx, hy]⟩

/-- Accounting invariant of the bounded worker pool: for any concurrency
`K ≥ 1` and any completion schedule, a run with enough fuel produces the
outcomes already collected plus exactly one outcome per in-flight and
backlog target — a permutation of them, nothing dropped, nothing
duplicated. -/
theorem schedRun_perm {α : Type} (K : Nat) (hK : 1 ≤ K) (work : String → α)
    (sched : Nat → Nat) :
    ∀ (fuel : Nat) (pending inflight : List String) (done : List α),
      2 * pending.length + inflight.length ≤ fuel →
      (schedRun K work sched fuel pending inflight done).Perm
        (done ++ (inflight.map work ++ pending.map work)) := by
  intro fuel
  induction fuel with
  | zero =>
    intro pending inflight done hle
    have hp : pending = [] := List.length_eq_zero.mp (by omega)
    have hi : inflight = [] := List.length_eq_zero.mp (by omega)
    subst hp; subst hi
    simp [schedRun]
  | succ fuel ih =>
    intro pending inflight done hle
    cases pending with
    | nil =>
      cases inflight with
      | nil =>
        have : schedRun K work sched (fuel + 1) [] [] done = done := by
          simp [schedRun, extractIdx]
        rw [this]
        exact List.Perm.of_eq (by simp)
      | cons t0 ts0 =>
        have hlt : sched fuel % (t0 :: ts0).length < (t0 :: ts0).length :=
          Nat.mod_lt _ (by simp)
        obtain ⟨x, rest, hex⟩ := extractIdx_isSome (t0 :: ts0) _ hlt
        have hperm := extractIdx_some_perm (t0 :: ts0) _ x rest hex
        have hlen : ts0.length = rest.length := by
          simpa using hperm.length_eq
        have hrec := ih [] rest (done ++ [work x]) (by simp at hle ⊢; omega)
        have hstep :
            schedRun K work sched (fuel + 1) [] (t0 :: ts0) done =
              schedRun K work sched fuel [] rest (done ++ [work x]) := by
          simp only [schedRun]
          rw [hex]
        rw [hstep]
        refine hrec.trans ?_
        have hmap : ((t0 :: ts0).map work).Perm (work x :: rest.map work) :=
          hperm.map work
        have e1 : done ++ [work x] ++ (rest.map work ++
            ([] : List String).map work) =
            done ++ (work x :: rest.map work) := by simp
        have e2 : done ++ ((t0 :: ts0).map work ++
            ([] : List String).map work) =
            done ++ (t0 :: ts0).map work := by simp
        rw [e1, e2]
        exact List.Perm.append_left done hmap.symm
    | cons p rest =>
      by_cases hfree : inflight.length < K
      · have hrec := ih rest (inflight ++ [p]) done (by simp at hle ⊢; omega)
        have hstep :
            schedRun K work sched (fuel + 1) (p :: rest) inflight done =
              schedRun K work sched fuel rest (inflight ++ [p]) done := by
          simp [schedRun, hfree]
        rw [hstep]
        refine hrec.trans (List.Perm.of_eq ?_)
        simp
      · have hpos : 0 < inflight.length := by omega
        have hlt : sched fuel % inflight.length < inflight.length :=
          Nat.mod_lt _ hpos
        obtain ⟨x, irem, hex⟩ := extractIdx_isSome inflight _ hlt
        have hperm := extractIdx_some_perm inflight _ x irem hex
        have hlen : inflight.length = irem.length + 1 := by
          simpa using hperm.length_eq
        have hrec := ih (p :: rest) irem (done ++ [work x])
          (by simp at hle ⊢; omega)
        have hstep :
            schedRun K work sched (fuel + 1) (p :: rest) inflight done =
              schedRun K work sched fuel (p :: rest) irem
                (done ++ [work x]) := by
          simp only [schedRun, if_neg hfree]
          rw [hex]
        rw [hstep]
        refine hrec.trans ?_
        have hmap : (inflight.map work).Perm (work x :: irem.map work) :=
          hperm.map work
        have e1 : done ++ [work x] ++
            (irem.map work ++ (p :: rest).map work) =
            done ++ (work x :: (irem.map work ++ (p :: rest).map work)) := by
          simp
        rw [e1]
        exact List.Perm.append_left done (hmap.append_right _).symm

/-- One fan-out call returns, for every concurrency `K ≥ 1` and every
completion schedule, a permutation of `targets.map work`: exactly one
outcome per target. -/
theorem fanOut_perm {α : Type} (K : Nat) (hK : 1 ≤ K) (sched : Nat → Nat)
    (targets : List String) (work : String → α) :
    (fanOut K sched targets work).Perm (targets.map work) := by
  have h := schedRun_perm K hK work sched (2 * targets.length) targets [] []
    (by simp)
  simpa using h

theorem execute_git_completed_fst
    (env2 : String → String → Nat × String × String)
    (repoPath command : String) :
    (execute_git_completed env2 repoPath command).1 = repoPath := by
  unfold execute_git_completed
  rcases h : env2 repoPath command with ⟨ec, out, err⟩
  cases ec <;> simp

/-- C1: one fan-out call of the run-command operation over a registry of N
repositories, for any concurrency K >= 1 and any completion schedule,
produces exactly N outcome records, and the outcome locations are a
permutation of the registry keys — each registry location appears exactly
once, none dropped, none duplicated, also when individual commands exit
non-zero (the environment is unrestricted). -/
theorem C1_fanout_accounting (K : Nat) (sched : Nat → Nat)
    (env2 : String → String → Nat × String × String)
    (repos : List String) (command : String)
    (hK : 1 ≤ K) (hnd : repos.Nodup) :
    (do_git_outcomes K sched env2 repos command).length = repos.length ∧
    ((do_git_outcomes K sched env2 repos command).map
      fun o => o.1).Perm repos ∧
    ∀ l ∈ repos,
      ((do_git_outcomes K sched env2 repos command).map
        fun o => o.1).count l = 1 := by
  have hperm := fanOut_perm K hK sched repos
    fun repo => execute_git_completed env2 repo command
  have hloc : ((do_git_outcomes K sched env2 repos command).map
      fun o => o.1).Perm repos := by
    have hmap := hperm.map fun o : Outcome => o.1
    have e : ∀ rs : List String, ((rs.map fun repo =>
        execute_git_completed env2 repo command).map
          fun o : Outcome => o.1) = rs := by
      intro rs
      induction rs with
      | nil => rfl
      | cons r rest ih => simp [execute_git_completed_fst, ih]
    rw [e repos] at hmap
    exact hmap
  refine ⟨?_, hloc, ?_⟩
  · simpa using hperm.length_eq
  · intro l hl
    rw [hloc.count_eq]
    exact List.count_eq_one_of_mem hnd hl

theorem C1_fanout_accounting_witness :
    (1 ≤ 1 ∧ (["repoA", "repoB"] : List String).Nodup) ∧
    ((do_git_outcomes 1 (fun _ => 0) (fun _ _ => (0, "ok", ""))
        ["repoA", "repoB"] "status").length =
      (["repoA", "repoB"] : List String).length ∧
    ((do_git_outcomes 1 (fun _ => 0) (fun _ _ => (0, "ok", ""))
        ["repoA", "repoB"] "status").map
      fun o => o.1).Perm ["repoA", "repoB"] ∧
    ∀ l ∈ (["repoA", "repoB"] : List String),
      ((do_git_outcomes 1 (fun _ => 0) (fun _ _ => (0, "ok", ""))
          ["repoA", "repoB"] "status").map
        fun o => o.1).count l = 1) :=
  ⟨⟨by decide, by decide⟩,
    C1_fanout_accounting 1 (fun _ => 0) (fun _ _ => (0, "ok", ""))
      ["repoA", "repoB"] "status" (by decide) (by decide)⟩

/-- C9: over the same targets and the same deterministic work function (the
same external-command environment), a fan-out call with concurrency 1 and a
fan-out call with concurrency 8 — under any two completion schedules —
yield the same multiset of outcome records; only the order may differ. -/
theorem C9_concurrency_one_eight_same_outcomes (sched1 sched2 : Nat → Nat)
    (env2 : String → String → Nat × String × String)
    (repos : List String) (command : String) :
    (↑(do_git_outcomes 1 sched1 env2 repos command) : Multiset Outcome) =
      ↑(do_git_outcomes 8 sched2 env2 repos command) := by
  have h1 := fanOut_perm 1 (by omega) sched1 repos
    fun repo => execute_git_completed env2 repo command
  have h8 := fanOut_perm 8 (by omega) sched2 repos
    fun repo => execute_git_completed env2 repo command
  exact Multiset.coe_eq_coe.mpr (h1.trans h8.symm)

theorem splitFirstSpace_eq_none (l : List Char)
    (h : ∀ c ∈ l, c ≠ ' ') : splitFirstSpace l = none := by
  induction l with
  | nil => rfl
  | cons c cs ih =>
    have hc : c ≠ ' ' := h c (by simp)
    have hcs : splitFirstSpace cs = none := ih fun d hd => h d (by simp [hd])
    simp [splitFirstSpace, hc, hcs]

/-- C10: with a non-empty registry, `do_git` applied to a statement without
a space after the first word (such as the bare `git`) reaches
`statement.split(" ", 1)[1]` and raises an uncaught `IndexError` instead of
producing outcomes or a reported error. -/
theorem C10_do_git_bare_statement_indexerror (K : Nat) (sched : Nat → Nat)
    (env2 : String → String → Nat × String × String)
    (repos : List String) (statement : String)
    (hne : repos ≠ []) (hsp : ∀ c ∈ statement.toList, c ≠ ' ') :
    do_git K sched env2 repos statement = .error .indexError := by
  cases repos with
  | nil => exact absurd rfl hne
  | cons a as =>
    have h1 : pySplitOnce statement = [statement] := by
      unfold pySplitOnce
      rw [splitFirstSpace_eq_none _ hsp]
    simp [do_git, h1]

theorem C10_do_git_bare_statement_indexerror_witness :
    ((["r1"] : List String) ≠ [] ∧ ∀ c ∈ "git".toList, c ≠ ' ') ∧
    do_git 4 (fun _ => 0) (fun _ _ => (0, "ok", "")) ["r1"] "git" =
      .error .indexError :=
  ⟨⟨by decide, by decide⟩,
    C10_do_git_bare_statement_indexerror 4 (fun _ => 0)
      (fun _ _ => (0, "ok", "")) ["r1"] "git" (by decide) (by decide)⟩

/-- C2 counterexample: when the process launch itself fails (git binary
missing), `_execute_git_command` does not return a failure outcome — the
exception escapes (`error`, and no outcome record exists). -/
theorem C2_counterexample_launch_failure_escapes :
    execute_git_command
        (fun _ _ => ProcResult.launchError "FileNotFoundError: git")
        "repo1" "status" =
      Except.error (PyExc.osError "FileNotFoundError: git") ∧
    (execute_git_command
        (fun _ _ => ProcResult.launchError "FileNotFoundError: git")
        "repo1" "status").toOption = none :=
  ⟨rfl, rfl⟩

/-- C2 amended: for every invocation whose process launches and completes,
`_execute_git_command` returns an outcome record — succeeded with trimmed
stdout on exit 0, failed with a location-and-stderr message on non-zero
exit; only process-launch failures escape as exceptions. -/
theorem C2_amended_executor_completed (env : String → String → ProcResult)
    (repoPath command : String) (ec : Nat) (out err : String)
    (h : env repoPath command = .completed ec out err) :
    execute_git_command env repoPath command =
      .ok (if ec = 0 then (repoPath, strTrim out, true)
        else
          (repoPath, "Error in " ++ repoPath ++ ":\n" ++ strTrim err,
            false)) := by
  unfold execute_git_command
  rw [h]
  by_cases hec : ec = 0 <;> simp [hec]

theorem C2_amended_executor_completed_witness :
    ((fun _ _ => ProcResult.completed 1 "x" " boom ") "r" "status" =
      ProcResult.completed 1 "x" " boom ") ∧
    execute_git_command (fun _ _ => ProcResult.completed 1 "x" " boom ")
        "r" "status" =
      .ok (if (1 : Nat) = 0 then ("r", strTrim "x", true)
        else ("r", "Error in " ++ "r" ++ ":\n" ++ strTrim " boom ",
          false)) :=
  ⟨rfl,
    C2_amended_executor_completed (fun _ _ => ProcResult.completed 1 "x" " boom ")
      "r" "status" 1 "x" " boom " rfl⟩

/-- C5 counterexample: when the current-branch query cannot even launch,
`_get_current_branch` raises instead of returning the sentinel. -/
theorem C5_counterexample_launch_failure_escapes :
    get_current_branch (fun _ => ProcResult.launchError "FileNotFoundError: git")
        "repo1" =
      Except.error (PyExc.osError "FileNotFoundError: git") ∧
    (get_current_branch
        (fun _ => ProcResult.launchError "FileNotFoundError: git")
        "repo1").toOption = none :=
  ⟨rfl, rfl⟩

/-- C5 amended: whenever the current-branch query launches and completes,
`_get_current_branch` returns the trimmed stdout on exit 0 and the sentinel
`"unknown"` on non-zero exit; only launch failures escape as exceptions. -/
theorem C5_amended_current_branch_completed (env : String → ProcResult)
    (repoPath : String) (ec : Nat) (out err : String)
    (h : env repoPath = .completed ec out err) :
    get_current_branch env repoPath =
      .ok (if ec = 0 then strTrim out else "unknown") := by
  unfold get_current_branch
  rw [h]
  by_cases hec : ec = 0 <;> simp [hec]

theorem C5_amended_current_branch_completed_witness :
    ((fun _ => ProcResult.completed 0 " main\n" "") "repo1" =
      ProcResult.completed 0 " main\n" "") ∧
    get_current_branch (fun _ => ProcResult.completed 0 " main\n" "")
        "repo1" =
      .ok (if (0 : Nat) = 0 then strTrim " main\n" else "unknown") :=
  ⟨rfl,
    C5_amended_current_branch_completed
      (fun _ => ProcResult.completed 0 " main\n" "") "repo1" 0 " main\n" ""
      rfl⟩

/-- C4 counterexample: the presenter does not sort by display label — three
verbose outcomes supplied in the order C, B, A are rendered in the order
C, B, A, not A, B, C. -/
theorem C4_counterexample_no_sorting :
    print_results true
        [("C", "oc", true), ("B", "ob", true), ("A", "oa", true)] =
      ["\n=== C ===", "oc", "\n=== B ===", "ob", "\n=== A ===", "oa"] ∧
    (["\n=== C ===", "oc", "\n=== B ===", "ob", "\n=== A ===", "oa"] :
        List String) ≠
      ["\n=== A ===", "oa", "\n=== B ===", "ob", "\n=== C ===", "oc"] :=
  ⟨by decide, by decide⟩

/-- C4 amended: the presenter emits its rendered blocks in the order the
outcomes were supplied (the input order of the results list), not sorted by
display label; in verbose mode every outcome yields one block, in input
order. -/
theorem C4_amended_input_order :
    (∀ results : List Outcome,
      print_results true results = results.flatMap outcome_block) ∧
    print_results true
        [("C", "oc", true), ("B", "ob", true), ("A", "oa", true)] =
      ["\n=== C ===", "oc", "\n=== B ===", "ob", "\n=== A ===", "oa"] := by
  constructor
  · intro results
    unfold print_results
    simp
  · decide

/-- C7: with verbose off the presenter renders exactly the failed outcomes
(in order), with verbose on it renders every outcome; the terse
presentation of A succeeded, B failed, C succeeded is exactly B's block. -/
theorem C7_presenter_filtering :
    (∀ results : List Outcome,
      print_results false results =
        (results.filter fun r => !r.2.2).flatMap outcome_block) ∧
    (∀ results : List Outcome,
      print_results true results = results.flatMap outcome_block) ∧
    print_results false
        [("A", "oa", true), ("B", "ob", false), ("C", "oc", true)] =
      ["\n=== B ===", "ob"] := by
  refine ⟨?_, ?_, by decide⟩
  · intro results
    induction results with
    | nil => rfl
    | cons r rs ih =>
      by_cases h : r.2.2 <;>
        simp [print_results, List.filter_cons, h] at ih ⊢ <;>
        exact ih
  · intro results
    unfold print_results
    simp

/-- C6: when the requested directory does not exist or is not a directory
(`os.path.isdir` is false), `do_scan` reports the error and returns with the
registry exactly as it was — no entry is added, removed or changed. -/
theorem C6_scan_bad_directory_preserves_registry
    (repos : List (String × String)) (scanDir : String) (tree : FSTree)
    (env : String → ProcResult) :
    do_scan repos scanDir false tree env =
      .ok (repos, ["Directory not found: " ++ scanDir]) := rfl

/-- Repository X of the C3 scenario: its remote reports default branch
`main`. -/
def envX : RepoGitEnv :=
  { remoteShowOrigin :=
      .completed 0 "* remote origin\n  Fetch URL: u\n  HEAD branch: main\n" ""
  , branchListAll := .completed 0 "* main\n" "" }

/-- Repository Y of the C3 scenario: it has no remote, so
`git remote show origin` exits non-zero, while its branch listing contains
`master`. -/
def envY : RepoGitEnv :=
  { remoteShowOrigin :=
      .completed 128 "" "fatal: origin does not appear to be a git repository"
  , branchListAll := .completed 0 "* dev\n  master\n" "" }

/-- C3 counterexample: for repository Y, whose remote query fails (no
remote) while `master` is among its known branches, `_get_default_branch`
resolves `"unknown"`, not `"master"` — the known-branch fallback is never
reached from the exception handler — so phase 1 over the registry X, Y
yields `main` and `unknown`, not `main` and `master`. -/
theorem C3_counterexample_no_remote_skips_fallback :
    envY.remoteShowOrigin =
      ProcResult.completed 128 ""
        "fatal: origin does not appear to be a git repository" ∧
    strContains "* dev\n  master\n" "master" = true ∧
    get_default_branch envY = Except.ok "unknown" ∧
    do_branch_switch_defaults (fun r => if r = "X" then envX else envY)
        ["X", "Y"] =
      Except.ok [("X", "main"), ("Y", "unknown")] ∧
    (Except.ok [("X", "main"), ("Y", "unknown")] :
        Except PyExc (List (String × String))) ≠
      Except.ok [("X", "main"), ("Y", "master")] :=
  ⟨rfl, by decide, by decide, by decide, by decide⟩

/-- C3 amended: with repository X's remote reporting default branch `main`
and repository Y's remote query failing (as with no remote), phase 1
resolves `main` for X and `unknown` for Y — the known-branch fallback is
consulted only when the remote query succeeds without a `HEAD branch`
line — and phase 2 attempts `checkout main` in X and `checkout unknown`
in Y. -/
theorem C3_amended_branch_switch (eX eY : RepoGitEnv) (sX eS sY tY : String)
    (k : Nat)
    (hX : eX.remoteShowOrigin = .completed 0 sX eS)
    (hXhead : findHeadBranch (splitLines sX) = some "main")
    (hY : eY.remoteShowOrigin = .completed (k + 1) sY tY) :
    do_branch_switch_defaults (fun r => if r = "X" then eX else eY)
        ["X", "Y"] =
      .ok [("X", "main"), ("Y", "unknown")] ∧
    checkout_commands [("X", "main"), ("Y", "unknown")] =
      [("X", "checkout main"), ("Y", "checkout unknown")] := by
  have h1 : get_default_branch eX = .ok "main" := by
    unfold get_default_branch
    rw [hX]
    simp [hXhead]
  have h2 : get_default_branch eY = .ok "unknown" := by
    unfold get_default_branch
    rw [hY]
    simp
  constructor
  · simp [do_branch_switch_defaults, h1, h2]
  · rfl

theorem C3_amended_branch_switch_witness :
    (envX.remoteShowOrigin =
        ProcResult.completed 0
          "* remote origin\n  Fetch URL: u\n  HEAD branch: main\n" "" ∧
      findHeadBranch (splitLines
        "* remote origin\n  Fetch URL: u\n  HEAD branch: main\n") =
        some "main" ∧
      envY.remoteShowOrigin =
        ProcResult.completed (127 + 1) ""
          "fatal: origin does not appear to be a git repository") ∧
    (do_branch_switch_defaults (fun r => if r = "X" then envX else envY)
        ["X", "Y"] =
      .ok [("X", "main"), ("Y", "unknown")] ∧
    checkout_commands [("X", "main"), ("Y", "unknown")] =
      [("X", "checkout main"), ("Y", "checkout unknown")]) :=
  ⟨⟨rfl, by decide, rfl⟩,
    C3_amended_branch_switch envX envY
      "* remote origin\n  Fetch URL: u\n  HEAD branch: main\n" ""
      "" "fatal: origin does not appear to be a git repository" 127
      rfl (by decide) rfl⟩

theorem listStartsWith_append_cons (pre : List String) (a b : String)
    (r s : List String)
    (h : listStartsWith (pre ++ a :: r) (pre ++ b :: s) = true) : a = b := by
  induction pre with
  | nil =>
    simp [listStartsWith] at h
    exact h.1
  | cons x xs ih =>
    simp [listStartsWith] at h
    exact ih h

mutual
theorem walkRepos_start (t : FSTree) :
    ∀ (pre p : List String), p ∈ walkRepos pre t →
      ∃ rest, p = pre ++ t.name :: rest := by
  cases t with
  | node name children =>
    intro pre p hp
    cases hg : hasGitChild children with
    | true =>
      simp [walkRepos, hg] at hp
      exact ⟨[], by simp [hp, FSTree.name]⟩
    | false =>
      simp [walkRepos, hg] at hp
      obtain ⟨n, rest, _, hp1⟩ := walkForest_start children (pre ++ [name]) p hp
      exact ⟨n :: rest, by simp [hp1, FSTree.name]⟩
theorem walkForest_start (ts : FSForest) :
    ∀ (pre p : List String), p ∈ walkForest pre ts →
      ∃ n rest, nameMem n (childNames ts) = true ∧ p = pre ++ n :: rest := by
  cases ts with
  | nil =>
    intro pre p hp
    simp [walkForest] at hp
  | cons t rest =>
    intro pre p hp
    rw [walkForest] at hp
    rcases List.mem_append.mp hp with hp1 | hp1
    · obtain ⟨r1, he⟩ := walkRepos_start t pre p hp1
      exact ⟨t.name, r1, by simp [nameMem, childNames], he⟩
    · obtain ⟨n, r1, hn, he⟩ := walkForest_start rest pre p hp1
      exact ⟨n, r1, by simp [nameMem, childNames, hn], he⟩
end

mutual
theorem walkRepos_no_nest (t : FSTree) :
    ∀ (pre p q : List String), t.wfb = true →
      p ∈ walkRepos pre t → q ∈ walkRepos pre t → p ≠ q →
      listStartsWith q p = false := by
  cases t with
  | node name children =>
    intro pre p q hwf hp hq hne
    simp [FSTree.wfb, Bool.and_eq_true] at hwf
    cases hg : hasGitChild children with
    | true =>
      simp [walkRepos, hg] at hp hq
      exact absurd (hp.trans hq.symm) hne
    | false =>
      simp [walkRepos, hg] at hp hq
      exact walkForest_no_nest children (pre ++ [name]) p q hwf.2 hwf.1
        hp hq hne
theorem walkForest_no_nest (ts : FSForest) :
    ∀ (pre p q : List String), FSForest.wfb ts = true →
      namesNodup (childNames ts) = true →
      p ∈ walkForest pre ts → q ∈ walkForest pre ts → p ≠ q →
      listStartsWith q p = false := by
  cases ts with
  | nil =>
    intro pre p q _ _ hp
    simp [walkForest] at hp
  | cons t rest =>
    intro pre p q hwf hnd hp hq hne
    simp [FSForest.wfb, Bool.and_eq_true] at hwf
    simp [childNames, namesNodup, Bool.and_eq_true] at hnd
    obtain ⟨hnd1, hndrest⟩ := hnd
    rw [walkForest] at hp hq
    rcases List.mem_append.mp hp with hp1 | hp1 <;>
      rcases List.mem_append.mp hq with hq1 | hq1
    · exact walkRepos_no_nest t pre p q hwf.1 hp1 hq1 hne
    · obtain ⟨r1, hpe⟩ := walkRepos_start t pre p hp1
      obtain ⟨n, r2, hn, hqe⟩ := walkForest_start rest pre q hq1
      have hneq : n ≠ t.name := by
        intro he
        rw [he] at hn
        rw [hnd1] at hn
        cases hn
      cases hS : listStartsWith q p with
      | false => rfl
      | true =>
        rw [hpe, hqe] at hS
        exact absurd (listStartsWith_append_cons pre n t.name r2 r1 hS) hneq
    · obtain ⟨n, r2, hn, hpe⟩ := walkForest_start rest pre p hp1
      obtain ⟨r1, hqe⟩ := walkRepos_start t pre q hq1
      have hneq : t.name ≠ n := by
        intro he
        rw [← he] at hn
        rw [hnd1] at hn
        cases hn
      cases hS : listStartsWith q p with
      | false => rfl
      | true =>
        rw [hpe, hqe] at hS
        exact absurd (listStartsWith_append_cons pre t.name n r1 r2 hS) hneq
    · exact walkForest_no_nest rest pre p q hwf.2 hndrest hp1 hq1 hne
end

/-- C8: on any well-formed directory tree (distinct sibling names, as on a
real filesystem), discovery never registers a path nested inside another
registered repository location: no registered path is a prefix of a
different registered path, because the walk does not descend below a
directory that contains the `.git` marker. -/
theorem C8_no_nested_repos (t : FSTree) (pre p q : List String)
    (hwf : t.wfb = true) (hp : p ∈ walkRepos pre t)
    (hq : q ∈ walkRepos pre t) (hne : p ≠ q) :
    listStartsWith q p = false :=
  walkRepos_no_nest t pre p q hwf hp hq hne

/-- A two-repository directory tree used as a concrete scan input. -/
def demoTree : FSTree :=
  .node "root"
    (.cons (.node "a" (.cons (.node ".git" .nil) .nil))
      (.cons (.node "b" (.cons (.node ".git" .nil)
        (.cons (.node "sub" (.cons (.node ".git" .nil) .nil)) .nil)))
        .nil))

theorem C8_no_nested_repos_witness :
    (FSTree.wfb demoTree = true ∧
      ["root", "a"] ∈ walkRepos [] demoTree ∧
      ["root", "b"] ∈ walkRepos [] demoTree ∧
      (["root", "a"] : List String) ≠ ["root", "b"]) ∧
    listStartsWith (["root", "b"] : List String) ["root", "a"] = false :=
  ⟨⟨by decide, by decide, by decide, by decide⟩,
    C8_no_nested_repos demoTree [] ["root", "a"] ["root", "b"]
      (by decide) (by decide) (by decide) (by decide)⟩
